import Mathlib

/-!
Verification development for the `cirello.io/runner` process orchestrator.

The Go sources under `internal/runner/runner.go` (current revision) are
shallowly embedded below.  Go strings are modelled as Lean `String`
(sequences of unicode scalar values, matching Go's rune view of valid
UTF-8 text), Go maps as association lists, and the orchestrator's event
loop as an explicit step function on a state record.  Loops whose Go
termination argument is "every iteration consumes at least one input
character" are embedded with an explicit fuel counter initialised to the
input length plus one, which the consumption bound makes sufficient.
-/

set_option maxRecDepth 4096

namespace RunnerProofs

/-! ### Definitions -/

/-- Go `strings.HasPrefix`. -/
def strStartsWith (s pre : String) : Bool := pre.data.isPrefixOf s.data

/-- The scanning loop of Go `strings.Split` for a non-empty separator:
split around each non-overlapping left-to-right occurrence.  Every step
consumes at least one character, so fuel `s.length + 1` is exact. -/
def splitOnAuxL (sep : List Char) : Nat → List Char → List Char → List (List Char)
  | 0, acc, _ => [acc.reverse]
  | _, acc, [] => [acc.reverse]
  | fuel+1, acc, c :: rest =>
    if sep.isPrefixOf (c :: rest) then
      acc.reverse :: splitOnAuxL sep fuel [] ((c :: rest).drop sep.length)
    else splitOnAuxL sep fuel (c :: acc) rest

/-- Go `strings.Split(s, sep)` for the non-empty separators used by the
runner (`"/"` and `"**"`). -/
def splitOnStr (s sep : String) : List String :=
  if sep = "" then [s]
  else (splitOnAuxL sep.data (s.data.length + 1) [] s.data).map String.mk

/-- Join a list of strings with a separator (Go `strings.Join`). -/
def joinWith (sep : String) : List String → String
  | [] => ""
  | [a] => a
  | a :: rest => a ++ sep ++ joinWith sep rest

/-- One step of `filepath.Clean`'s element processing: drop empty and `.`
elements, resolve `..` against the output stack (a `..` at the root is
dropped, a `..` with nothing to pop is kept for relative paths). -/
def cleanStep (rooted : Bool) (acc : List String) (comp : String) : List String :=
  if comp = "" ∨ comp = "." then acc
  else if comp = ".." then
    match acc with
    | top :: rest => if top = ".." then comp :: acc else rest
    | [] => if rooted then [] else [comp]
  else comp :: acc

/-- Go `filepath.Clean` on Unix: lexical simplification of a path. -/
def cleanPath (path : String) : String :=
  if path = "" then "."
  else
    let rooted := strStartsWith path "/"
    let comps := (splitOnStr path "/").foldl (cleanStep rooted) []
    let joined := joinWith "/" comps.reverse
    if rooted then "/" ++ joined
    else if joined = "" then "." else joined

/-- Go `filepath.Base` on Unix: last element of the path after stripping
trailing slashes; `.` for the empty path, `/` when everything is slashes. -/
def basePath (path : String) : String :=
  if path = "" then "."
  else
    let stripped := (path.data.reverse.dropWhile (· = '/')).reverse
    let last := (stripped.reverse.takeWhile (· ≠ '/')).reverse
    if last = [] ∧ stripped = [] then "/"
    else String.mk last

/-- Go `filepath.Dir` on Unix: everything up to and including the final
slash, cleaned. -/
def dirPath (path : String) : String :=
  let upto := (path.data.reverse.dropWhile (· ≠ '/')).reverse
  cleanPath (String.mk upto)

/-- Go `filepath.Join` restricted to two elements, as used by the watcher:
non-empty elements joined by `/`, then cleaned. -/
def joinPath (a b : String) : String :=
  if a = "" ∧ b = "" then ""
  else if a = "" then cleanPath b
  else if b = "" then cleanPath a
  else cleanPath (a ++ "/" ++ b)

/-- Remove the first occurrence of the non-empty character list `old` from
`s`, or `none` when `old` does not occur in `s`. -/
def removeFirst (old : List Char) : List Char → Option (List Char)
  | [] => if old = [] then some [] else none
  | c :: rest =>
    if old.isPrefixOf (c :: rest) then some ((c :: rest).drop old.length)
    else (removeFirst old rest).map (c :: ·)

/-- Go `strings.Replace(s, old, "", 1)`: drop the first occurrence of
`old` from `s`, returning `s` unchanged when `old` does not occur. -/
def replaceFirstEmpty (s old : String) : String :=
  match removeFirst old.data s.data with
  | some t => String.mk t
  | none => s

/-- Go `filepath.getEsc`: one (possibly backslash-escaped) character of a
character class; errors (`none`) on `-`, `]`, a trailing backslash, or an
exhausted class. -/
def getEsc : List Char → Option (Char × List Char)
  | [] => none
  | c :: rest =>
    if c = '-' ∨ c = ']' then none
    else if c = '\\' then
      match rest with
      | [] => none
      | r :: rest' => if rest' = [] then none else some (r, rest')
    else if rest = [] then none else some (c, rest)

/-- The range-parsing loop of `matchChunk`'s `[` case: scans
`lo`(-`hi`)? pairs until an unescaped `]` (with at least one range seen),
accumulating whether the rune `r` fell in any range. -/
def classRanges (r : Char) : Nat → List Char → Nat → Bool → Option (Bool × List Char)
  | 0, _, _, _ => none
  | fuel+1, chunk, nrange, m =>
    match chunk with
    | ']' :: rest =>
      if nrange > 0 then some (m, rest) else none
    | _ =>
      match getEsc chunk with
      | none => none
      | some (lo, chunk1) =>
        let hiStep : Option (Char × List Char) :=
          match chunk1 with
          | '-' :: c2 => getEsc c2
          | _ => some (lo, chunk1)
        match hiStep with
        | none => none
        | some (hi, chunk2) =>
          classRanges r fuel chunk2 (nrange + 1) (m || (decide (lo ≤ r) && decide (r ≤ hi)))

/-- Go `filepath.matchChunk`: match a star-free chunk at the head of `s`.
`none` is ErrBadPattern; otherwise the remaining input and whether the
chunk matched.  After a failure the chunk is still scanned for syntax
errors without consuming input, as in the source. -/
def matchChunk : Nat → List Char → List Char → Bool → Option (List Char × Bool)
  | 0, _, _, _ => none
  | _fuel+1, [], s, failed => if failed then some ([], false) else some (s, true)
  | fuel+1, c :: crest, s, failed0 =>
    let failed := failed0 || s.isEmpty
    if c = '[' then
      let rs : Char × List Char :=
        if failed then (Char.ofNat 0, s) else (s.headD (Char.ofNat 0), s.tail)
      let neg : Bool × List Char :=
        match crest with
        | '^' :: t => (true, t)
        | _ => (false, crest)
      match classRanges rs.1 (neg.2.length + 1) neg.2 0 false with
      | none => none
      | some (m, chunk2) =>
        matchChunk fuel chunk2 rs.2 (failed || (m == neg.1))
    else if c = '?' then
      if failed then matchChunk fuel crest s failed
      else matchChunk fuel crest s.tail (failed || (s.headD (Char.ofNat 0) == '/'))
    else if c = '\\' then
      match crest with
      | [] => none
      | c1 :: crest' =>
        if failed then matchChunk fuel crest' s failed
        else matchChunk fuel crest' s.tail (failed || (c1 != s.headD (Char.ofNat 0)))
    else
      if failed then matchChunk fuel crest s failed
      else matchChunk fuel crest s.tail (failed || (c != s.headD (Char.ofNat 0)))

/-- The scanning loop of Go `filepath.scanChunk`: split at the first
unescaped star outside a character class. -/
def scanSplit : List Char → Bool → List Char × List Char
  | [], _ => ([], [])
  | c :: rest, inrange =>
    if c = '\\' then
      match rest with
      | r :: rest' =>
        let ab := scanSplit rest' inrange
        (c :: r :: ab.1, ab.2)
      | [] => ([c], [])
    else if c = '[' then
      let ab := scanSplit rest true
      (c :: ab.1, ab.2)
    else if c = ']' then
      let ab := scanSplit rest false
      (c :: ab.1, ab.2)
    else if c = '*' ∧ inrange = false then ([], c :: rest)
    else
      let ab := scanSplit rest inrange
      (c :: ab.1, ab.2)

/-- Leading-star stripping of Go `filepath.scanChunk`. -/
def stripStars : List Char → Bool → Bool × List Char
  | '*' :: rest, _ => stripStars rest true
  | p, star => (star, p)

/-- Go `filepath.scanChunk`: (saw a leading star, next star-free chunk,
remaining pattern). -/
def scanChunk (p : List Char) : Bool × List Char × List Char :=
  let sp := stripStars p false
  let cr := scanSplit sp.2 false
  (sp.1, cr.1, cr.2)

/-- The star-backtracking loop of Go `filepath.Match`: try the chunk at
each successive position of `name` before a `/`.  `some (some t)` is a
successful continuation with remainder `t`; `some none` means the loop
exhausted its positions; `none` is ErrBadPattern. -/
def starLoopFind (chunk : List Char) (lastChunk : Bool) : List Char → Option (Option (List Char))
  | [] => some none
  | c :: rest =>
    if c = '/' then some none
    else
      match matchChunk (chunk.length + 1) chunk rest false with
      | none => none
      | some (t, ok) =>
        if ok ∧ ¬(lastChunk ∧ t ≠ []) then some (some t)
        else starLoopFind chunk lastChunk rest

/-- The trailing syntax check of Go `filepath.Match`: before returning a
non-error `false`, the rest of the pattern is validated. -/
def checkRest : Nat → List Char → Option Bool
  | 0, _ => none
  | fuel+1, p =>
    if p = [] then some false
    else
      let sc := scanChunk p
      match matchChunk (sc.2.1.length + 1) sc.2.1 [] false with
      | none => none
      | some _ => checkRest fuel sc.2.2

/-- The main loop of Go `filepath.Match`.  Each iteration consumes at
least one pattern character, so fuel `pattern.length + 1` is exact. -/
def goMatchAux : Nat → List Char → List Char → Option Bool
  | 0, _, _ => none
  | fuel+1, pattern, name =>
    if pattern = [] then some name.isEmpty
    else
      let sc := scanChunk pattern
      let star := sc.1
      let chunk := sc.2.1
      let rest := sc.2.2
      if star ∧ chunk = [] then some (!(name.contains '/'))
      else
        match matchChunk (chunk.length + 1) chunk name false with
        | none => none
        | some (t, ok) =>
          if ok ∧ (t = [] ∨ rest ≠ []) then goMatchAux fuel rest t
          else if star then
            match starLoopFind chunk (rest = []) name with
            | none => none
            | some (some t') => goMatchAux fuel rest t'
            | some none => checkRest (rest.length + 1) rest
          else checkRest (rest.length + 1) rest

/-- Go `filepath.Match(pattern, name)`; `none` is ErrBadPattern. -/
def goMatch (pattern name : String) : Option Bool :=
  goMatchAux (pattern.length + 1) pattern.data name.data

/-- The segment-consumption loop of the runner's `match`: each non-empty
`**`-separated piece of the pattern directory, cleaned, is removed from
the running directory string by a first-occurrence replace; an unchanged
replace result fails the match. -/
def consumeLoop : List String → String → Bool
  | [], _ => true
  | subp :: rest, tmp =>
    if subp = "" then consumeLoop rest tmp
    else
      let subp' := cleanPath subp
      let t := replaceFirstEmpty tmp subp'
      if t = tmp then false else consumeLoop rest t

/-- The function `match` from `internal/runner/runner.go` (named `matchPath` here —
`match` is a Lean keyword): glob-match of basenames, then directory
consumption of `**`-separated segments. -/
def matchPath (p path : String) : Bool :=
  let base := basePath path
  let dir := dirPath path
  let pbase := basePath p
  let pdir := dirPath p
  match goMatch pbase base with
  | none => false
  | some false => false
  | some true =>
    if pdir = "." then true
    else consumeLoop (splitOnStr pdir "**") dir

/-- One character of `normalizeByEnvVarRules`'s loop: a digit in first
position, or any character outside `[a-zA-Z0-9]`, becomes `_`. -/
def normChar (isFirst : Bool) (v : Char) : Char :=
  if (isFirst = true ∧ '0' ≤ v ∧ v ≤ '9') ∨
     ¬(('a' ≤ v ∧ v ≤ 'z') ∨ ('A' ≤ v ∧ v ≤ 'Z') ∨ ('0' ≤ v ∧ v ≤ '9')) then '_'
  else v

/-- Go `strings.ToUpper` on the characters the normalisation buffer can
contain (ASCII letters, digits and `_`; every non-alphanumeric rune has
already been replaced by `_`). -/
def toUpperGo (v : Char) : Char :=
  if 'a' ≤ v ∧ v ≤ 'z' then Char.ofNat (v.toNat - 32) else v

/-- The buffer-filling loop of `normalizeByEnvVarRules`. -/
def normBuf : Bool → List Char → List Char
  | _, [] => []
  | isFirst, v :: rest => normChar isFirst v :: normBuf false rest

/-- Go `normalizeByEnvVarRules` from `internal/runner/runner.go`: rewrite a
name to POSIX env-var form (`[a-zA-Z_]+[a-zA-Z0-9_]*`, uppercased). -/
def normalizeByEnvVarRules (name : String) : String :=
  String.mk ((normBuf true name.data).map toUpperGo)

/-- The character class `[A-Z0-9_]` of normalised output. -/
def allowedEnvChar (c : Char) : Prop :=
  c = '_' ∨ ('A' ≤ c ∧ c ≤ 'Z') ∨ ('0' ≤ c ∧ c ≤ '9')

/-- Go `RestartMode` from `internal/runner/runner.go`. -/
inductive RestartMode where
  | onBuild
  | onFailure
  | temporary
  | loop
  | never
deriving DecidableEq, Repr

/-- Go `ProcessType` — the fields the orchestration logic reads. -/
structure ProcessType where
  name : String
  cmd : String
  waitFor : String
  restart : RestartMode
deriving DecidableEq, Repr

/-- Lookup in a Go `map[string]int` (`r.Formation`): absent keys give the
zero value. -/
def formationCount (formation : List (String × Nat)) (name : String) : Nat :=
  match formation.find? (fun kv => kv.1 == name) with
  | some kv => kv.2
  | none => 0

/-- Assignment `m[k] = v` on the association-list model of `map[string]string`. -/
def setKey (m : List (String × String)) (k v : String) : List (String × String) :=
  match m with
  | [] => [(k, v)]
  | (k', v') :: rest => if k' = k then (k, v) :: rest else (k', v') :: setKey rest k v

/-- Go `delete(m, k)` on the association-list model. -/
def delKey (m : List (String × String)) (k : String) : List (String × String) :=
  match m with
  | [] => []
  | (k', v') :: rest => if k' = k then delKey rest k else (k', v') :: delKey rest k

/-- Lookup `m[k]` (with presence flag) on the association-list model. -/
def lookupKey (m : List (String × String)) (k : String) : Option String :=
  match m with
  | [] => none
  | (k', v') :: rest => if k' = k then some v' else lookupKey rest k

/-- The synthesized type name of `Start`'s uniqueness loop:
`fmt.Sprintf("%v.%v", proc.Name, r.Formation[proc.Name])` — the
formation COUNT is used as the suffix. -/
def synthesizedTypeName (formation : List (String × Nat)) (p : ProcessType) : String :=
  p.name ++ "." ++ toString (formationCount formation p.name)

/-- The duplicate-detection loop of `Start` (lines 197–208): record every
normalised synthesized name in `nameDict`, returning `true` (the
`ErrNonUniqueProcessTypeName` outcome) on a repeat. -/
def startNameCheckGo (formation : List (String × Nat)) :
    List ProcessType → List String → Bool
  | [], _ => false
  | p :: rest, seen =>
    let n := normalizeByEnvVarRules (synthesizedTypeName formation p)
    if n ∈ seen then true else startNameCheckGo formation rest (n :: seen)

/-- Whether `Start` fails with `ErrNonUniqueProcessTypeName` for this
configuration. -/
def startNameCheckFails (procs : List ProcessType)
    (formation : List (String × Nat)) : Bool :=
  startNameCheckGo formation procs []

/-- The per-descriptor normalised synthesized names, in order. -/
def synthesizedNames (procs : List ProcessType)
    (formation : List (String × Nat)) : List String :=
  procs.map (fun p => normalizeByEnvVarRules (synthesizedTypeName formation p))

/-- The instance names claim C3 quantifies over: `name.i` for every
instance index `i` below the formation count, normalised. -/
def claimInstanceNames (procs : List ProcessType)
    (formation : List (String × Nat)) : List String :=
  procs.flatMap (fun p =>
    (List.range (formationCount formation p.name)).map
      (fun i => normalizeByEnvVarRules (p.name ++ "." ++ toString i)))

/-- The build attempts `runBuilds` launches, in program order: every
descriptor whose name has prefix `build`, repeated `formation[name]`
times. -/
def buildAttempts (procs : List ProcessType)
    (formation : List (String × Nat)) : List ProcessType :=
  procs.flatMap (fun sv =>
    if strStartsWith sv.name "build" then
      List.replicate (formationCount formation sv.name) sv
    else [])

/-- Sequentialisation of `runBuilds`'s attempt loop (lines 279–318):
attempt `i` marks its normalised name `building`, runs (`succ i` is the
`startProcess` outcome, `output i` the captured buffer), then the
deferred block stores the captured output under `ERROR_<name>` on
failure (deleting it on success) and finally writes the status `done` or
`errored` under the normalised name.  The overall flag is the
conjunction of all attempt outcomes.  Go runs the attempts concurrently;
each attempt's writes keep this per-attempt order and the final barrier
(`wgBuild.Wait`) is the return point, so this sequential order realises
one legal interleaving. -/
def runBuildsGo (succ : Nat → Bool) (output : Nat → String) :
    List ProcessType → Nat → List (String × String) →
      List (String × String) × Bool
  | [], _, st => (st, true)
  | sv :: rest, i, st =>
    let n := normalizeByEnvVarRules sv.name
    let st1 := setKey st n "building"
    let localOk := succ i
    let st2 :=
      if localOk then setKey (delKey st1 ("ERROR_" ++ n)) n "done"
      else setKey (setKey st1 ("ERROR_" ++ n) (output i)) n "errored"
    let r := runBuildsGo succ output rest (i + 1) st2
    (r.1, localOk && r.2)

/-- Go `runBuilds` on a service-state map `st`: final map and result flag. -/
def runBuilds (succ : Nat → Bool) (output : Nat → String)
    (procs : List ProcessType) (formation : List (String × Nat))
    (st : List (String × String)) : List (String × String) × Bool :=
  runBuildsGo succ output (buildAttempts procs formation) 0 st

/-- Go `discoveryEnvVar(name, procCount)`: the normalised `NAME_<i>_PORT`
service-discovery key. -/
def discoveryEnvVar (name : String) (procCount : Int) : String :=
  normalizeByEnvVarRules (name ++ "_" ++ toString procCount ++ "_PORT")

/-- One supervised instance registration: descriptor index `j`, the
descriptor, instance index `i`, and the captured `portCount`. -/
structure ChildSpec where
  j : Nat
  sv : ProcessType
  i : Nat
  pc : Nat
deriving DecidableEq, Repr

/-- The instance loop of `runPermanent` (lines 331–349): instances whose
restart mode is `Loop`, `Temporary` or `OnFailure` are skipped (they
belong to the ephemeral tree, and `portCount` is not incremented for
them); every added instance captures the current `portCount`, which is
then incremented.  `n` counts the remaining iterations. -/
def permInstLoop (j : Nat) (sv : ProcessType) : Nat → Nat → Nat → List ChildSpec
  | _, _, 0 => []
  | i, pc, n+1 =>
    if sv.restart = .loop ∨ sv.restart = .temporary ∨ sv.restart = .onFailure then
      permInstLoop j sv (i+1) pc n
    else ChildSpec.mk j sv i pc :: permInstLoop j sv (i+1) (pc+1) n

/-- The descriptor loop of `runPermanent` (lines 325–350): build-prefixed
descriptors are skipped; `portCount` starts at `j*100` per descriptor. -/
def runPermanentGo (formation : List (String × Nat)) :
    Nat → List ProcessType → List ChildSpec
  | _, [] => []
  | j, sv :: rest =>
    (if strStartsWith sv.name "build" then []
     else permInstLoop j sv 0 (j * 100) (formationCount formation sv.name))
    ++ runPermanentGo formation (j + 1) rest

/-- The children registered by `runPermanent`. -/
def runPermanentChildren (procs : List ProcessType)
    (formation : List (String × Nat)) : List ChildSpec :=
  runPermanentGo formation 0 procs

/-- The instance loop of `runEphemeral` (lines 366–402): `Loop`,
`Temporary` and `OnFailure` instances are added (each branch increments
`portCount`); other modes fall through without an increment. -/
def ephemInstLoop (j : Nat) (sv : ProcessType) : Nat → Nat → Nat → List ChildSpec
  | _, _, 0 => []
  | i, pc, n+1 =>
    if sv.restart = .loop then
      ChildSpec.mk j sv i pc :: ephemInstLoop j sv (i+1) (pc+1) n
    else if sv.restart = .temporary then
      ChildSpec.mk j sv i pc :: ephemInstLoop j sv (i+1) (pc+1) n
    else if sv.restart = .onFailure then
      ChildSpec.mk j sv i pc :: ephemInstLoop j sv (i+1) (pc+1) n
    else ephemInstLoop j sv (i+1) pc n

/-- The descriptor loop of `runEphemeral` (lines 360–403). -/
def runEphemeralGo (formation : List (String × Nat)) :
    Nat → List ProcessType → List ChildSpec
  | _, [] => []
  | j, sv :: rest =>
    (if strStartsWith sv.name "build" then []
     else ephemInstLoop j sv 0 (j * 100) (formationCount formation sv.name))
    ++ runEphemeralGo formation (j + 1) rest

/-- The children registered by `runEphemeral`. -/
def runEphemeralChildren (procs : List ProcessType)
    (formation : List (String × Nat)) : List ChildSpec :=
  runEphemeralGo formation 0 procs

/-- The pure outcome of `startProcess` (lines 453–503): the child
environment and the dynamic service-discovery write. -/
structure StartProcessResult where
  env : List String
  sdUpdates : List (String × String)
deriving Repr, DecidableEq

/-- The environment assembly and service-discovery write of
`startProcess` (lines 453–503).  `procCount`/`portCount` are the Go
ints (−1 disables instance naming and the port, as for builds). -/
def startProcessEnv (osEnv baseEnvironment staticServiceDiscovery : List String)
    (serviceDiscoveryAddr : String) (basePort : Int)
    (sv : ProcessType) (procCount portCount : Int)
    (changedFileName : String) : StartProcessResult :=
  let procName := if procCount > -1 then sv.name ++ "." ++ toString procCount else sv.name
  let env1 := osEnv ++ (if baseEnvironment.length > 0 then baseEnvironment else [])
    ++ ["PS=" ++ procName]
  let isPortEnabled := basePort > 0 ∧ portCount > -1
  let port := basePort + portCount
  let env2 := if isPortEnabled then env1 ++ ["PORT=" ++ toString port] else env1
  let sd : List (String × String) :=
    if isPortEnabled then
      [(discoveryEnvVar sv.name procCount, "localhost:" ++ toString port)]
    else []
  let env3 :=
    if serviceDiscoveryAddr ≠ "" then
      env2 ++ ["DISCOVERY=" ++ serviceDiscoveryAddr] ++ staticServiceDiscovery
    else env2
  ⟨env3 ++ ["CHANGED_FILENAME=" ++ changedFileName], sd⟩

/-- The descriptor loop of `prepareStaticServiceDiscovery` (lines
408–429).  `portCount` is initialised to `j*100` per descriptor and — in
the source — incremented only AFTER the instance loop (line 427), an
increment with no further effect; every advertised instance therefore
carries `basePort + j*100`. -/
def staticSDGo (basePort : Int) (formation : List (String × Nat)) :
    Nat → List ProcessType → List String
  | _, [] => []
  | j, sv :: rest =>
    (if strStartsWith sv.name "build" then []
     else
       (List.range (formationCount formation sv.name)).filterMap (fun i =>
         if sv.restart = .loop ∨ sv.restart = .temporary ∨ sv.restart = .onFailure then
           none
         else
           some (discoveryEnvVar sv.name (Int.ofNat i) ++ "=localhost:" ++
             toString (basePort + (j * 100 : Int)))))
    ++ staticSDGo basePort formation (j + 1) rest

/-- Go `prepareStaticServiceDiscovery` (lines 408–429); a zero `BasePort`
disables it. -/
def prepareStaticServiceDiscovery (basePort : Int) (procs : List ProcessType)
    (formation : List (String × Nat)) : List String :=
  if basePort = 0 then [] else staticSDGo basePort formation 0 procs

/-- Go `resolveProcessTypeAddress` (lines 523–532): scan the dynamic
service-discovery entries for a key that has `target` as a prefix and
return `"localhost:" + value` — where the stored value for port keys is
itself already `localhost:<port>`.  Unmatched targets are returned
literally.  (Go map iteration order is unspecified; the model takes the
first matching entry of the association list.) -/
def resolveProcessTypeAddress (sd : List (String × String))
    (target : String) : String :=
  match sd.find? (fun kv => strStartsWith kv.1 target) with
  | some kv => "localhost:" ++ kv.2
  | none => target

/-- The dial loop of `waitFor` (lines 505–521): each 250 ms tick
re-resolves the target (the resolved value feeds the next round) and
dials it; the loop ends at the first successful dial (the connection is
closed immediately) or when the context is cancelled after `fuel`
ticks.  Returns the addresses dialled, in order. -/
def waitForDials (sd : List (String × String)) (dialOk : String → Bool) :
    Nat → String → List String
  | 0, _ => []
  | fuel+1, target =>
    let t := resolveProcessTypeAddress sd target
    if dialOk t then [t] else t :: waitForDials sd dialOk fuel t

/-- One iteration of `backoff`'s producer loop (lines 742–771), in
milliseconds: when the tick is delivered the sleep is
`base + retries*retry` capped at `max` and `retries` increments; when
the consumer is not ready (`default` branch) the sleep resets to `base`
and `retries` to 0. -/
def backoffTick (base retry maxD : Nat) (retries : Nat) (delivered : Bool) :
    Nat × Nat :=
  if delivered then
    (if base + retries * retry > maxD then maxD else base + retries * retry,
      retries + 1)
  else (base, 0)

/-- The sleep durations of successive `backoff` iterations for the tick
delivery pattern `trace`, starting from a given retry counter.  The
watcher strategies invoke `backoff(ctx, 50ms, 250ms, 5s)`. -/
def backoffDelays (base retry maxD : Nat) : List Bool → Nat → List Nat
  | [], _ => []
  | t :: ts, retries =>
    let dr := backoffTick base retry maxD retries t
    dr.1 :: backoffDelays base retry maxD ts dr.2

/-- The loop-carried state of `Start`'s select loop (lines 214–263):
`fileHashes`, whether `cancel()` has been called on the current
generation context `c`, how many generation trees have been started, the
one-slot `run` channel buffer, the `ephemeralOnce` flag, and whether the
loop has returned (root-context cancellation only). -/
structure OrchState where
  fileHashes : List (String × String)
  genCancelled : Bool
  generation : Nat
  runSlot : Option String
  ephemeralStarted : Bool
  terminated : Bool
deriving DecidableEq, Repr

/-- What one iteration of the select loop did. -/
inductive OrchAction where
  | skipped
  | buildFailed
  | runQueued
  | coalesced
  | ranGen
  | shutdown
deriving DecidableEq, Repr

/-- The `case fn := <-updates` arm (lines 226–246).  `hash` models
`calcFileHash`, `backlog` is `len(updates)` after the receive and
`buildOk` the result `runBuilds` returns for this event.  An unchanged
known hash with a pending backlog skips the event before any build; a
failed build logs and continues without cancelling; a successful build
with an empty backlog cancels the generation context and queues the
event on the `run` channel (non-blocking send); otherwise the event
coalesces with the backlog. -/
def stepUpdate (hash : String → String) (backlog : Nat) (buildOk : Bool)
    (fn : String) (s : OrchState) : OrchState × OrchAction :=
  let newHash := hash fn
  let skip : Bool :=
    match lookupKey s.fileHashes fn with
    | some oldHash => (newHash == oldHash) && decide (0 < backlog)
    | none => false
  if skip then (s, .skipped)
  else
    let s1 := { s with fileHashes := setKey s.fileHashes fn newHash }
    if buildOk = false then (s1, .buildFailed)
    else if backlog = 0 then
      ({ s1 with
          genCancelled := true
          runSlot :=
            match s1.runSlot with
            | none => some fn
            | some x => some x }, .runQueued)
    else (s1, .coalesced)

/-- The `case fn := <-run` arm (lines 247–261): start the ephemeral tree
once, open a fresh generation context in place of the cancelled one and
start the new permanent tree under it.  The arm only fires when the
buffer holds an event. -/
def stepRun (s : OrchState) : OrchState × OrchAction :=
  match s.runSlot with
  | none => (s, .ranGen)
  | some _ =>
    ({ s with
        runSlot := none
        ephemeralStarted := true
        genCancelled := false
        generation := s.generation + 1 }, .ranGen)

/-- The `case <-rootCtx.Done()` arm (lines 222–225). -/
def stepShutdown (s : OrchState) : OrchState × OrchAction :=
  ({ s with terminated := true }, .shutdown)

mutual
/-- A node of the scanned working directory. -/
inductive FSEntry where
  | file (name : String)
  | dir (name : String) (entries : FSList)
deriving DecidableEq
/-- Directory contents, in walk order. -/
inductive FSList where
  | nil
  | cons (e : FSEntry) (rest : FSList)
deriving DecidableEq
end

/-- The name of an entry (`info.Name()`). -/
def FSEntry.entryName : FSEntry → String
  | .file n => n
  | .dir n _ => n

/-- The scanner's directory prune test (lines 663–672): some non-empty
`skipDir` satisfies `strings.HasPrefix(path, filepath.Join(workdir,
skipDir))`. -/
def prunedDir (wd : String) (skips : List String) (d : String) : Bool :=
  skips.any (fun sd => sd != "" && strStartsWith d (joinPath wd sd))

mutual
/-- The walk callback of `monitorWorkDirScanner` on one entry at `p`:
pruned directories contribute nothing (`filepath.SkipDir`); a file is a
candidate iff some observable pattern matches its path (lines 674–691 —
the loop `break`s after the first match, so one candidate per file). -/
def walkEntry (wd : String) (skips obs : List String) (p : String) :
    FSEntry → List String
  | .file _ => if obs.any (fun pt => matchPath pt p) then [p] else []
  | .dir _ entries =>
    if prunedDir wd skips p then []
    else walkEntries wd skips obs p entries
/-- The walk over a directory's entries; child paths are
`filepath.Join(parent, name)`. -/
def walkEntries (wd : String) (skips obs : List String) (p : String) :
    FSList → List String
  | .nil => []
  | .cons e rest =>
    walkEntry wd skips obs (joinPath p e.entryName) e
      ++ walkEntries wd skips obs p rest
end

/-- The emission candidates of one polling round of
`monitorWorkDirScanner` over the tree rooted at `workdir`. -/
def scanCandidates (wd : String) (skips obs : List String)
    (root : FSEntry) : List String :=
  walkEntry wd skips obs wd root

mutual
/-- Every file path in the tree, paired with the paths of the
directories (root included) whose prune check guards it. -/
def fsFiles (p : String) : FSEntry → List (String × List String)
  | .file _ => [(p, [])]
  | .dir _ entries => (fsFilesList p entries).map (fun fd => (fd.1, p :: fd.2))
/-- Map `fsFiles` over directory contents. -/
def fsFilesList (p : String) : FSList → List (String × List String)
  | .nil => []
  | .cons e rest =>
    fsFiles (joinPath p e.entryName) e ++ fsFilesList p rest
end

/-- A negative observable: `!`-prefixed (spec §3, invariant 3). -/
def isNegativePattern (p : String) : Bool := strStartsWith p "!"

/-- Claim C4's "matches a negative observable": the pattern stripped of
its leading `!` matches the path. -/
def matchesNegative (obs : List String) (path : String) : Bool :=
  obs.any (fun p => isNegativePattern p && matchPath (String.mk p.data.tail) path)

/-- Claim C4's "matches at least one positive observable". -/
def matchesPositive (obs : List String) (path : String) : Bool :=
  obs.any (fun p => !isNegativePattern p && matchPath p path)

/-- Spec 4.1's description of the directory check: every non-empty segment
of the pattern directory (split at `**`), cleaned, occurs in order in
the path's directory, each occurrence consumed by a first-occurrence
removal. -/
def segmentsOccurInOrder : List String → String → Bool
  | [], _ => true
  | seg :: segs, dir =>
    if seg = "" then segmentsOccurInOrder segs dir
    else
      match removeFirst (cleanPath seg).data dir.data with
      | none => false
      | some dir' => segmentsOccurInOrder segs (String.mk dir')

/-- The matcher exactly as C7/§4.1 words it: the basenames must match
under the standard Unix glob, and either the pattern's directory is `.`
or its `**`-segments are consumed in order from the path's directory. -/
def matchSpec (p s : String) : Bool :=
  decide (goMatch (basePath p) (basePath s) = some true) &&
  (decide (dirPath p = ".") ||
    segmentsOccurInOrder (splitOnStr (dirPath p) "**") (dirPath s))

/-! ### Theorems -/

lemma removeFirst_length_lt (old : List Char) (hold : old ≠ []) :
    ∀ (s t : List Char), removeFirst old s = some t → t.length < s.length := by
  intro s
  induction s with
  | nil =>
    intro t h
    simp only [removeFirst] at h
    split at h
    · exact absurd (by assumption) hold
    · exact absurd h (by simp)
  | cons c rest ih =>
    intro t h
    simp only [removeFirst] at h
    split at h
    · rename_i hpre
      have hlen := ( List.isPrefixOf_iff_prefix.mp hpre).length_le
      cases old with
      | nil => exact absurd rfl hold
      | cons o os =>
        have hsome : (c :: rest).drop (o :: os).length = t := by
          simpa using h
        subst hsome
        simp only [List.length_drop, List.length_cons]
        omega
    · rcases Option.map_eq_some'.mp h with ⟨t', ht', rfl⟩
      have := ih t' ht'
      simp only [List.length_cons]
      omega

lemma replaceFirstEmpty_ne_of_some (s old : String) (hold : old ≠ "")
    (t : List Char) (h : removeFirst old.data s.data = some t) :
    replaceFirstEmpty s old ≠ s := by
  have hlen : t.length < s.data.length := by
    refine removeFirst_length_lt old.data ?_ s.data t h
    intro hh
    exact hold (by cases old with | mk l => simpa using congrArg String.mk hh)
  intro heq
  have : replaceFirstEmpty s old = String.mk t := by
    simp [replaceFirstEmpty, h]
  rw [this] at heq
  have ht : t = s.data := congrArg String.data heq
  rw [ht] at hlen
  omega

lemma replaceFirstEmpty_eq_iff (s old : String) (hold : old ≠ "") :
    replaceFirstEmpty s old = s ↔ removeFirst old.data s.data = none := by
  constructor
  · intro h
    cases hr : removeFirst old.data s.data with
    | none => rfl
    | some t => exact absurd h (replaceFirstEmpty_ne_of_some s old hold t hr)
  · intro h
    simp [replaceFirstEmpty, h]

lemma matchPath_test_star_go : matchPath "*.go" "/test/test.go" = true := by decide

lemma matchPath_test_star_ago : matchPath "*.ago" "/test/test.go" = false := by decide

lemma matchPath_test_dir_go : matchPath "test/*.go" "/test/test.go" = true := by decide

lemma matchPath_test_dir_ago : matchPath "test/*.ago" "/test/test.go" = false := by decide

lemma matchPath_test_doublestar_go : matchPath "**/test/*.go" "/test/test.go" = true := by decide

lemma matchPath_test_doublestar_ago : matchPath "**/test/*.ago" "/test/test.go" = false := by decide

lemma matchPath_test_deep_go : matchPath "**/test/aa/*.go" "/test/test.go" = false := by decide

lemma matchPath_test_deep_ago : matchPath "**/test/aa/*.ago" "/test/test.go" = false := by decide

lemma matchPath_test_multi_true : matchPath "**/test/**/test/**/*.go" "/test/aa/test/test.go" = true := by decide

lemma matchPath_test_multi_false : matchPath "**/test/**/test/**/*.go" "/test/test.go" = false := by decide

lemma toNat_ofNat_valid (n : Nat) (h : n < 0xD800) : (Char.ofNat n).toNat = n := by
  have hv : Nat.isValidChar n := Or.inl h
  simp only [Char.ofNat, hv, dif_pos, Char.ofNatAux, Char.toNat]
  simp [UInt32.toNat, BitVec.toNat_ofNatLt]

lemma charLe_iff (a b : Char) : a ≤ b ↔ a.toNat ≤ b.toNat := Iff.rfl

lemma normalize_test_build_a : normalizeByEnvVarRules "build-a" = "BUILD_A" := by decide

lemma normalize_test_web_0 : normalizeByEnvVarRules "web.0" = "WEB_0" := by decide

lemma normalize_test_digit : normalizeByEnvVarRules "9lives" = "_LIVES" := by decide

lemma toUpperGo_lower (v : Char) (hlo : 'a' ≤ v ∧ v ≤ 'z') :
    toUpperGo v = Char.ofNat (v.toNat - 32) := by
  unfold toUpperGo; rw [if_pos hlo]

lemma toUpperGo_not_lower (v : Char) (h : ¬('a' ≤ v ∧ v ≤ 'z')) :
    toUpperGo v = v := by
  unfold toUpperGo; rw [if_neg h]

lemma toUpperGo_normChar_allowed (first : Bool) (v : Char) :
    allowedEnvChar (toUpperGo (normChar first v)) := by
  unfold normChar
  split
  · left; decide
  · rename_i hcond
    have halnum : ('a' ≤ v ∧ v ≤ 'z') ∨ ('A' ≤ v ∧ v ≤ 'Z') ∨ ('0' ≤ v ∧ v ≤ '9') :=
      not_not.mp (fun hn => hcond (Or.inr hn))
    rcases halnum with hlo | hup | hdig
    · have h1 : 97 ≤ v.toNat := hlo.1
      have h2 : v.toNat ≤ 122 := hlo.2
      have hv : v.toNat - 32 < 0xD800 := by omega
      have ht := toNat_ofNat_valid (v.toNat - 32) hv
      rw [toUpperGo_lower v hlo]
      right; left
      refine ⟨?_, ?_⟩
      · rw [charLe_iff, ht]; show (65:Nat) ≤ _; omega
      · rw [charLe_iff, ht]; show _ ≤ (90:Nat); omega
    · have h1 : 65 ≤ v.toNat := hup.1
      have h2 : v.toNat ≤ 90 := hup.2
      rw [toUpperGo_not_lower v (fun hl => by have : 97 ≤ v.toNat := hl.1; omega)]
      right; left; exact hup
    · have h1 : 48 ≤ v.toNat := hdig.1
      have h2 : v.toNat ≤ 57 := hdig.2
      rw [toUpperGo_not_lower v (fun hl => by have : 97 ≤ v.toNat := hl.1; omega)]
      right; right; exact hdig

lemma toUpperGo_normChar_first_not_digit (v : Char) :
    ¬('0' ≤ toUpperGo (normChar true v) ∧ toUpperGo (normChar true v) ≤ '9') := by
  unfold normChar
  split
  · decide
  · rename_i hcond
    have hnd : ¬('0' ≤ v ∧ v ≤ '9') := fun hd => hcond (Or.inl ⟨rfl, hd⟩)
    have halnum : ('a' ≤ v ∧ v ≤ 'z') ∨ ('A' ≤ v ∧ v ≤ 'Z') ∨ ('0' ≤ v ∧ v ≤ '9') :=
      not_not.mp (fun hn => hcond (Or.inr hn))
    rcases halnum with hlo | hup | hdig
    · have h1 : 97 ≤ v.toNat := hlo.1
      have h2 : v.toNat ≤ 122 := hlo.2
      have hv : v.toNat - 32 < 0xD800 := by omega
      have ht := toNat_ofNat_valid (v.toNat - 32) hv
      rw [toUpperGo_lower v hlo]
      intro hdig'
      have hle : (Char.ofNat (v.toNat - 32)).toNat ≤ '9'.toNat := hdig'.2
      rw [ht] at hle
      have : '9'.toNat = 57 := by decide
      omega
    · have h1 : 65 ≤ v.toNat := hup.1
      have h2 : v.toNat ≤ 90 := hup.2
      rw [toUpperGo_not_lower v (fun hl => by have : 97 ≤ v.toNat := hl.1; omega)]
      intro hdig'
      have : v.toNat ≤ 57 := hdig'.2
      omega
    · exact absurd hdig hnd

lemma normChar_allowed_eq (b : Bool) (c : Char) (ha : allowedEnvChar c)
    (hfirst : b = true → ¬('0' ≤ c ∧ c ≤ '9')) : normChar b c = c := by
  rcases ha with rfl | hup | hdig
  · cases b <;> decide
  · have h1 : 65 ≤ c.toNat := hup.1
    have h2 : c.toNat ≤ 90 := hup.2
    unfold normChar
    rw [if_neg]
    intro h
    rcases h with ⟨_, hd⟩ | hn
    · have : c.toNat ≤ 57 := hd.2
      omega
    · exact hn (Or.inr (Or.inl hup))
  · cases b with
    | false =>
      unfold normChar
      rw [if_neg]
      intro h
      rcases h with ⟨hb, _⟩ | hn
      · exact Bool.false_ne_true hb
      · exact hn (Or.inr (Or.inr hdig))
    | true => exact absurd hdig (hfirst rfl)

lemma toUpperGo_allowed_eq (c : Char) (ha : allowedEnvChar c) : toUpperGo c = c := by
  unfold toUpperGo
  rw [if_neg]
  intro hl
  have hlo : 97 ≤ c.toNat := hl.1
  rcases ha with rfl | hup | hdig
  · exact absurd hlo (by decide)
  · have : c.toNat ≤ 90 := hup.2
    omega
  · have : c.toNat ≤ 57 := hdig.2
    omega

lemma normBuf_map_allowed (b : Bool) (l : List Char) :
    ∀ c ∈ (normBuf b l).map toUpperGo, allowedEnvChar c := by
  induction l generalizing b with
  | nil => intro c hc; simp [normBuf] at hc
  | cons v rest ih =>
    intro c hc
    simp only [normBuf, List.map_cons, List.mem_cons] at hc
    rcases hc with rfl | hc
    · exact toUpperGo_normChar_allowed b v
    · exact ih false c hc

lemma normBuf_map_fixed_false (l : List Char) (h : ∀ c ∈ l, allowedEnvChar c) :
    (normBuf false l).map toUpperGo = l := by
  induction l with
  | nil => rfl
  | cons c rest ih =>
    have hc := h c (by simp)
    simp only [normBuf, List.map_cons]
    rw [normChar_allowed_eq false c hc (by simp), toUpperGo_allowed_eq c hc,
      ih (fun d hd => h d (by simp [hd]))]

lemma normBuf_map_fixed (l : List Char) (h : ∀ c ∈ l, allowedEnvChar c)
    (hhead : ∀ c, l.head? = some c → ¬('0' ≤ c ∧ c ≤ '9')) :
    (normBuf true l).map toUpperGo = l := by
  cases l with
  | nil => rfl
  | cons c rest =>
    have hc := h c (by simp)
    simp only [normBuf, List.map_cons]
    rw [normChar_allowed_eq true c hc (fun _ => hhead c rfl), toUpperGo_allowed_eq c hc,
      normBuf_map_fixed_false rest (fun d hd => h d (by simp [hd]))]

lemma normalize_head_not_digit (s : String) :
    ∀ c, ((normBuf true s.data).map toUpperGo).head? = some c → ¬('0' ≤ c ∧ c ≤ '9') := by
  cases s.data with
  | nil => intro c hc; simp [normBuf] at hc
  | cons v rest =>
    intro c hc
    simp only [normBuf, List.map_cons, List.head?_cons, Option.some.injEq] at hc
    rw [← hc]
    exact toUpperGo_normChar_first_not_digit v

/-- C10: `normalizeByEnvVarRules` is idempotent, its output contains
only characters from `[A-Z0-9_]`, and the first output character is never
a digit. -/
theorem normalizeByEnvVarRules_idempotent_and_shape (s : String) :
    normalizeByEnvVarRules (normalizeByEnvVarRules s) = normalizeByEnvVarRules s
    ∧ (∀ c ∈ (normalizeByEnvVarRules s).data, allowedEnvChar c)
    ∧ (∀ c, (normalizeByEnvVarRules s).data.head? = some c →
        ¬('0' ≤ c ∧ c ≤ '9')) := by
  refine ⟨?_, ?_, ?_⟩
  · show String.mk _ = String.mk _
    congr 1
    exact normBuf_map_fixed _ (normBuf_map_allowed true s.data) (normalize_head_not_digit s)
  · intro c hc
    exact normBuf_map_allowed true s.data c hc
  · intro c hc
    exact normalize_head_not_digit s c hc

lemma lookupKey_setKey_self (m : List (String × String)) (k v : String) :
    lookupKey (setKey m k v) k = some v := by
  induction m with
  | nil => simp [setKey, lookupKey]
  | cons kv rest ih =>
    obtain ⟨k', v'⟩ := kv
    by_cases h : k' = k <;> simp [setKey, lookupKey, h, ih]

lemma lookupKey_setKey_other (m : List (String × String)) (k v k' : String)
    (h : k ≠ k') : lookupKey (setKey m k v) k' = lookupKey m k' := by
  induction m with
  | nil => simp [setKey, lookupKey, h]
  | cons kv rest ih =>
    obtain ⟨k0, v0⟩ := kv
    by_cases h0 : k0 = k
    · subst h0
      simp [setKey, lookupKey, h]
    · simp [setKey, lookupKey, h0, ih]

lemma lookupKey_delKey_self (m : List (String × String)) (k : String) :
    lookupKey (delKey m k) k = none := by
  induction m with
  | nil => simp [delKey, lookupKey]
  | cons kv rest ih =>
    obtain ⟨k0, v0⟩ := kv
    by_cases h0 : k0 = k <;> simp [delKey, lookupKey, h0, ih]

lemma lookupKey_delKey_other (m : List (String × String)) (k k' : String)
    (h : k ≠ k') : lookupKey (delKey m k) k' = lookupKey m k' := by
  induction m with
  | nil => simp [delKey, lookupKey]
  | cons kv rest ih =>
    obtain ⟨k0, v0⟩ := kv
    by_cases h0 : k0 = k
    · subst h0
      simp [delKey, lookupKey, h, ih]
    · simp [delKey, lookupKey, h0, ih]

lemma startNameCheckGo_spec (formation : List (String × Nat)) :
    ∀ (l : List ProcessType) (seen : List String),
      startNameCheckGo formation l seen = true ↔
        (∃ x ∈ synthesizedNames l formation, x ∈ seen) ∨
          ¬(synthesizedNames l formation).Nodup := by
  intro l
  induction l with
  | nil => intro seen; simp [startNameCheckGo, synthesizedNames]
  | cons p rest ih =>
    intro seen
    simp only [startNameCheckGo, synthesizedNames, List.map_cons, List.nodup_cons]
    by_cases hmem : normalizeByEnvVarRules (synthesizedTypeName formation p) ∈ seen
    · simp only [if_pos hmem]
      constructor
      · intro _
        exact Or.inl ⟨_, by simp, hmem⟩
      · intro _; trivial
    · simp only [if_neg hmem]
      rw [ih]
      simp only [synthesizedNames, List.mem_cons]
      constructor
      · rintro (⟨x, hx, rfl | hxseen⟩ | hnd)
        · exact Or.inr (fun hn => hn.1 hx)
        · exact Or.inl ⟨x, by simp [hx], hxseen⟩
        · exact Or.inr (fun hn => hnd hn.2)
      · rintro (⟨x, hx, hxseen⟩ | hnd)
        · rcases hx with rfl | hx
          · exact absurd hxseen hmem
          · exact Or.inl ⟨x, by simp [hx], Or.inr hxseen⟩
        · by_cases hin :
            normalizeByEnvVarRules (synthesizedTypeName formation p) ∈
              rest.map (fun q => normalizeByEnvVarRules (synthesizedTypeName formation q))
          · exact Or.inl ⟨_, by simpa using hin, Or.inl rfl⟩
          · exact Or.inr (fun hn2 => hnd ⟨hin, hn2⟩)

/-- C3, counterexample: With descriptors `a-b` and `a.b` and an
empty formation there are no process instances at all, so the claim's
per-instance names are pairwise distinct vacuously — yet `Start` fails
with the non-unique-name error, because the check synthesizes
`name.formationCount` per descriptor and both `a-b.0` and `a.b.0`
normalise to `A_B_0`. -/
theorem startNameCheck_counterexample :
    startNameCheckFails
        [⟨"a-b", "x", "", RestartMode.never⟩, ⟨"a.b", "y", "", RestartMode.never⟩]
        [] = true
    ∧ (claimInstanceNames
        [⟨"a-b", "x", "", RestartMode.never⟩, ⟨"a.b", "y", "", RestartMode.never⟩]
        []).Nodup := by
  constructor
  · decide
  · decide

/-- C3, amended: `Start` fails with `ErrNonUniqueProcessTypeName`
iff two descriptors synthesize the same normalised `name.count` string,
where `count` is the descriptor's formation count (0 when absent) — i.e.
iff the list of per-descriptor synthesized names has a repeat.  (The
validation is per descriptor, not per instance index.) -/
theorem startNameCheckFails_iff_dup (procs : List ProcessType)
    (formation : List (String × Nat)) :
    startNameCheckFails procs formation = true ↔
      ¬(synthesizedNames procs formation).Nodup := by
  unfold startNameCheckFails
  rw [startNameCheckGo_spec]
  simp

lemma buildAttempts_build (procs : List ProcessType)
    (formation : List (String × Nat)) :
    ∀ sv ∈ buildAttempts procs formation,
      strStartsWith sv.name "build" = true := by
  intro sv hsv
  simp only [buildAttempts, List.mem_flatMap] at hsv
  obtain ⟨sv0, _, hmem⟩ := hsv
  by_cases h0 : strStartsWith sv0.name "build" = true
  · rw [if_pos h0] at hmem
    rcases List.eq_of_mem_replicate hmem with rfl
    exact h0
  · rw [if_neg h0] at hmem
    simp at hmem

lemma norm_build_head (s : String) (h : strStartsWith s "build" = true) :
    (normalizeByEnvVarRules s).data.head? = some 'B' := by
  have hpre := List.isPrefixOf_iff_prefix.mp h
  obtain ⟨t, ht⟩ := hpre
  have hs : s.data = 'b' :: ('u' :: 'i' :: 'l' :: 'd' :: t) := by
    rw [← ht]; rfl
  show ((normBuf true s.data).map toUpperGo).head? = some 'B'
  rw [hs]
  simp only [normBuf, List.map_cons, List.head?_cons, Option.some.injEq]
  decide

lemma error_key_head (n : String) :
    ("ERROR_" ++ n).data.head? = some 'E' := by
  rw [String.data_append]
  rfl

lemma norm_build_ne_error_key (s n : String)
    (h : strStartsWith s "build" = true) :
    normalizeByEnvVarRules s ≠ "ERROR_" ++ n := by
  intro heq
  have h1 := norm_build_head s h
  rw [heq, error_key_head] at h1
  simp at h1

lemma string_append_left_cancel (x a b : String) (h : x ++ a = x ++ b) :
    a = b := by
  have hd := congrArg String.data h
  rw [String.data_append, String.data_append] at hd
  have hab := List.append_cancel_left hd
  cases a; cases b
  exact congrArg String.mk hab

lemma runBuildsGo_flag (succ : Nat → Bool) (output : Nat → String) :
    ∀ (l : List ProcessType) (i : Nat) (st : List (String × String)),
      (runBuildsGo succ output l i st).2 = true ↔
        ∀ j < l.length, succ (i + j) = true := by
  intro l
  induction l with
  | nil => intro i st; simp [runBuildsGo]
  | cons sv rest ih =>
    intro i st
    simp only [runBuildsGo, Bool.and_eq_true, ih, List.length_cons]
    constructor
    · rintro ⟨h0, hrest⟩ j hj
      cases j with
      | zero => simpa using h0
      | succ j' =>
        have := hrest j' (by omega)
        simpa [Nat.add_comm, Nat.add_assoc, Nat.add_left_comm] using this
    · intro hall
      refine ⟨by simpa using hall 0 (by omega), fun j hj => ?_⟩
      have := hall (j + 1) (by omega)
      simpa [Nat.add_comm, Nat.add_assoc, Nat.add_left_comm] using this

lemma runBuildsGo_preserves (succ : Nat → Bool) (output : Nat → String) :
    ∀ (l : List ProcessType) (i : Nat) (st : List (String × String))
      (k : String),
      (∀ sv ∈ l, normalizeByEnvVarRules sv.name ≠ k ∧
        "ERROR_" ++ normalizeByEnvVarRules sv.name ≠ k) →
      lookupKey (runBuildsGo succ output l i st).1 k = lookupKey st k := by
  intro l
  induction l with
  | nil => intro i st k _; rfl
  | cons sv rest ih =>
    intro i st k hk
    obtain ⟨hn, he⟩ := hk sv (by simp)
    simp only [runBuildsGo]
    rw [ih _ _ _ (fun sv' hsv' => hk sv' (by simp [hsv']))]
    by_cases hsucc : succ i = true
    · simp only [hsucc, if_pos]
      rw [lookupKey_setKey_other _ _ _ _ hn, lookupKey_delKey_other _ _ _ he,
        lookupKey_setKey_other _ _ _ _ hn]
    · simp only [Bool.not_eq_true] at hsucc
      simp only [hsucc, Bool.false_eq_true, if_neg, if_false]
      rw [lookupKey_setKey_other _ _ _ _ hn, lookupKey_setKey_other _ _ _ _ he,
        lookupKey_setKey_other _ _ _ _ hn]

lemma runBuildsGo_state (succ : Nat → Bool) (output : Nat → String) :
    ∀ (l : List ProcessType) (i : Nat) (st : List (String × String)),
      ((l.map (fun sv => normalizeByEnvVarRules sv.name)).Nodup) →
      (∀ sv ∈ l, strStartsWith sv.name "build" = true) →
      ∀ (j : Nat) (hj : j < l.length),
        lookupKey (runBuildsGo succ output l i st).1
            (normalizeByEnvVarRules (l.get ⟨j, hj⟩).name) =
          some (if succ (i + j) then "done" else "errored")
        ∧ lookupKey (runBuildsGo succ output l i st).1
            ("ERROR_" ++ normalizeByEnvVarRules (l.get ⟨j, hj⟩).name) =
          (if succ (i + j) then none else some (output (i + j))) := by
  intro l
  induction l with
  | nil => intro i st _ _ j hj; exact absurd hj (by simp)
  | cons sv rest ih =>
    intro i st hnodup hbuild j hj
    rw [List.map_cons, List.nodup_cons] at hnodup
    obtain ⟨hn0, hnd⟩ := hnodup
    have hb0 := hbuild sv (by simp)
    cases j with
    | zero =>
      simp only [List.get, runBuildsGo]
      have hpres_n : ∀ sv' ∈ rest,
          normalizeByEnvVarRules sv'.name ≠ normalizeByEnvVarRules sv.name ∧
          "ERROR_" ++ normalizeByEnvVarRules sv'.name ≠ normalizeByEnvVarRules sv.name := by
        intro sv' hsv'
        constructor
        · intro heq
          exact hn0 (heq ▸ List.mem_map_of_mem _ hsv')
        · intro heq
          exact norm_build_ne_error_key sv.name _ hb0 heq.symm
      have hpres_e : ∀ sv' ∈ rest,
          normalizeByEnvVarRules sv'.name ≠
            "ERROR_" ++ normalizeByEnvVarRules sv.name ∧
          "ERROR_" ++ normalizeByEnvVarRules sv'.name ≠
            "ERROR_" ++ normalizeByEnvVarRules sv.name := by
        intro sv' hsv'
        refine ⟨norm_build_ne_error_key sv'.name _ (hbuild sv' (by simp [hsv'])), ?_⟩
        intro heq
        have := string_append_left_cancel "ERROR_" _ _ heq
        exact hn0 (this ▸ List.mem_map_of_mem _ hsv')
      have hne : normalizeByEnvVarRules sv.name ≠
          "ERROR_" ++ normalizeByEnvVarRules sv.name :=
        norm_build_ne_error_key sv.name _ hb0
      rw [runBuildsGo_preserves succ output rest _ _ _ hpres_n,
        runBuildsGo_preserves succ output rest _ _ _ hpres_e]
      by_cases hsucc : succ i = true
      · simp only [hsucc, if_pos, Nat.add_zero, if_true]
        constructor
        · exact lookupKey_setKey_self _ _ _
        · rw [lookupKey_setKey_other _ _ _ _ hne, lookupKey_delKey_self]
      · simp only [Bool.not_eq_true] at hsucc
        simp only [hsucc, Nat.add_zero, Bool.false_eq_true, if_false]
        constructor
        · exact lookupKey_setKey_self _ _ _
        · rw [lookupKey_setKey_other _ _ _ _ hne, lookupKey_setKey_self]
    | succ j' =>
      have hj' : j' < rest.length := by
        simp only [List.length_cons] at hj; omega
      have := ih (i + 1) (if succ i then
          setKey (delKey (setKey st (normalizeByEnvVarRules sv.name) "building")
            ("ERROR_" ++ normalizeByEnvVarRules sv.name))
            (normalizeByEnvVarRules sv.name) "done"
        else
          setKey (setKey (setKey st (normalizeByEnvVarRules sv.name) "building")
            ("ERROR_" ++ normalizeByEnvVarRules sv.name) (output i))
            (normalizeByEnvVarRules sv.name) "errored")
        hnd (fun sv' hsv' => hbuild sv' (by simp [hsv'])) j' hj'
      simp only [runBuildsGo, List.get]
      have harith : i + 1 + j' = i + (j' + 1) := by omega
      rw [harith] at this
      by_cases hsucc : succ i = true
      · simpa only [hsucc, if_pos, if_true] using this
      · simp only [Bool.not_eq_true] at hsucc
        simpa only [hsucc, Bool.false_eq_true, if_false] using this

/-- C5, counterexample: After a successful build of a process named
`build-a`, the service state holds the status under the key `BUILD_A`
(the normalised process name itself) and contains no key
`BUILD_BUILD_A`: `runBuilds` does not prepend `BUILD_` to the normalised
name. -/
theorem buildStatusKey_counterexample :
    lookupKey (runBuilds (fun _ => true) (fun _ => "")
        [⟨"build-a", "make server", "", RestartMode.never⟩]
        [("build-a", 1)] []).1 "BUILD_BUILD_A" = none
    ∧ lookupKey (runBuilds (fun _ => true) (fun _ => "")
        [⟨"build-a", "make server", "", RestartMode.never⟩]
        [("build-a", 1)] []).1 "BUILD_A" = some "done" := by
  constructor
  · decide
  · decide

/-- C5, amended: `runBuilds` returns `true` iff every launched build
attempt succeeded; and, provided the attempts' normalised names are
pairwise distinct, every attempt leaves its status under its normalised
name (`BUILD_A` for `build-a`) as `done` on success and `errored` on
failure — never `building` — while the captured output is stored under
`ERROR_<normalised name>` exactly when that attempt failed, the entry
being removed on success. -/
theorem runBuilds_spec (succ : Nat → Bool) (output : Nat → String)
    (procs : List ProcessType) (formation : List (String × Nat))
    (st : List (String × String))
    (hnodup : ((buildAttempts procs formation).map
        (fun sv => normalizeByEnvVarRules sv.name)).Nodup) :
    ((runBuilds succ output procs formation st).2 = true ↔
      ∀ j < (buildAttempts procs formation).length, succ j = true)
    ∧ ∀ (j : Nat) (hj : j < (buildAttempts procs formation).length),
        lookupKey (runBuilds succ output procs formation st).1
            (normalizeByEnvVarRules
              ((buildAttempts procs formation).get ⟨j, hj⟩).name) =
          some (if succ j then "done" else "errored")
        ∧ lookupKey (runBuilds succ output procs formation st).1
            ("ERROR_" ++ normalizeByEnvVarRules
              ((buildAttempts procs formation).get ⟨j, hj⟩).name) =
          (if succ j then none else some (output j)) := by
  constructor
  · simpa using runBuildsGo_flag succ output (buildAttempts procs formation) 0 st
  · intro j hj
    have := runBuildsGo_state succ output (buildAttempts procs formation) 0 st
      hnodup (buildAttempts_build procs formation) j hj
    simpa using this

/-- Witness for `runBuilds_spec` at a concrete failing build `build-a`. -/
theorem runBuilds_spec_witness :
    (((buildAttempts [⟨"build-a", "make server", "", RestartMode.never⟩]
        [("build-a", 1)]).map
        (fun sv => normalizeByEnvVarRules sv.name)).Nodup)
    ∧ (((runBuilds (fun _ => false) (fun _ => "compile error")
          [⟨"build-a", "make server", "", RestartMode.never⟩]
          [("build-a", 1)] []).2 = true ↔
        ∀ j < (buildAttempts [⟨"build-a", "make server", "", RestartMode.never⟩]
            [("build-a", 1)]).length, (fun _ => false : Nat → Bool) j = true)
      ∧ ∀ (j : Nat) (hj : j < (buildAttempts
            [⟨"build-a", "make server", "", RestartMode.never⟩]
            [("build-a", 1)]).length),
          lookupKey (runBuilds (fun _ => false) (fun _ => "compile error")
              [⟨"build-a", "make server", "", RestartMode.never⟩]
              [("build-a", 1)] []).1
              (normalizeByEnvVarRules
                ((buildAttempts [⟨"build-a", "make server", "", RestartMode.never⟩]
                  [("build-a", 1)]).get ⟨j, hj⟩).name) =
            some (if (fun _ => false : Nat → Bool) j then "done" else "errored")
          ∧ lookupKey (runBuilds (fun _ => false) (fun _ => "compile error")
              [⟨"build-a", "make server", "", RestartMode.never⟩]
              [("build-a", 1)] []).1
              ("ERROR_" ++ normalizeByEnvVarRules
                ((buildAttempts [⟨"build-a", "make server", "", RestartMode.never⟩]
                  [("build-a", 1)]).get ⟨j, hj⟩).name) =
            (if (fun _ => false : Nat → Bool) j then none
             else some ((fun _ => "compile error" : Nat → String) j))) :=
  ⟨by decide,
    runBuilds_spec (fun _ => false) (fun _ => "compile error")
      [⟨"build-a", "make server", "", RestartMode.never⟩]
      [("build-a", 1)] [] (by decide)⟩

lemma permInstLoop_skip (j : Nat) (sv : ProcessType)
    (h : sv.restart = .loop ∨ sv.restart = .temporary ∨ sv.restart = .onFailure) :
    ∀ n i pc, permInstLoop j sv i pc n = [] := by
  intro n
  induction n with
  | zero => intro i pc; rfl
  | succ n ih => intro i pc; simp [permInstLoop, h, ih]

lemma permInstLoop_add (j : Nat) (sv : ProcessType)
    (h : ¬(sv.restart = .loop ∨ sv.restart = .temporary ∨ sv.restart = .onFailure)) :
    ∀ n i pc, permInstLoop j sv i pc n =
      (List.range n).map (fun k => ChildSpec.mk j sv (i + k) (pc + k)) := by
  intro n
  induction n with
  | zero => intro i pc; rfl
  | succ n ih =>
    intro i pc
    rw [List.range_succ_eq_map]
    simp only [permInstLoop, h, if_false, List.map_cons, List.map_map]
    refine congrArg₂ _ (by simp) ?_
    rw [ih]
    apply List.map_congr_left
    intro k _
    simp only [Function.comp_apply]
    refine congrArg₂ _ ?_ ?_ <;> omega

/-- Every permanent-tree child captures `portCount = j*100 + i`. -/
lemma runPermanentChildren_pc (procs : List ProcessType)
    (formation : List (String × Nat)) :
    ∀ c ∈ runPermanentChildren procs formation, c.pc = c.j * 100 + c.i := by
  unfold runPermanentChildren
  generalize 0 = j0
  induction procs generalizing j0 with
  | nil => intro c hc; simp [runPermanentGo] at hc
  | cons sv rest ih =>
    intro c hc
    simp only [runPermanentGo, List.mem_append] at hc
    rcases hc with hc | hc
    · by_cases hb : strStartsWith sv.name "build" = true
      · simp [hb] at hc
      · rw [if_neg hb] at hc
        by_cases hr : sv.restart = .loop ∨ sv.restart = .temporary ∨ sv.restart = .onFailure
        · rw [permInstLoop_skip j0 sv hr] at hc
          simp at hc
        · rw [permInstLoop_add j0 sv hr] at hc
          simp only [List.mem_map, List.mem_range] at hc
          obtain ⟨k, _, rfl⟩ := hc
          simp
    · exact ih (j0 + 1) c hc

lemma ephemInstLoop_cases (j : Nat) (sv : ProcessType) :
    ∀ n i pc, ephemInstLoop j sv i pc n = [] ∨
      ephemInstLoop j sv i pc n =
        (List.range n).map (fun k => ChildSpec.mk j sv (i + k) (pc + k)) := by
  have hmain : ∀ n i pc,
      (sv.restart = .loop ∨ sv.restart = .temporary ∨ sv.restart = .onFailure) →
        ephemInstLoop j sv i pc n =
          (List.range n).map (fun k => ChildSpec.mk j sv (i + k) (pc + k)) := by
    intro n
    induction n with
    | zero => intro i pc _; rfl
    | succ n ih =>
      intro i pc h
      rw [List.range_succ_eq_map]
      have hstep : ephemInstLoop j sv i pc (n+1) =
          ChildSpec.mk j sv i pc :: ephemInstLoop j sv (i+1) (pc+1) n := by
        rcases h with h | h | h <;> simp [ephemInstLoop, h]
      rw [hstep, ih (i+1) (pc+1) h]
      simp only [List.map_cons, List.map_map]
      refine congrArg₂ _ (by simp) ?_
      apply List.map_congr_left
      intro k _
      simp only [Function.comp_apply]
      refine congrArg₂ _ ?_ ?_ <;> omega
  have hnone : ∀ n i pc,
      ¬(sv.restart = .loop ∨ sv.restart = .temporary ∨ sv.restart = .onFailure) →
        ephemInstLoop j sv i pc n = [] := by
    intro n
    induction n with
    | zero => intro i pc _; rfl
    | succ n ih =>
      intro i pc h
      push_neg at h
      obtain ⟨h1, h2, h3⟩ := h
      simp only [ephemInstLoop, h1, h2, h3, if_false]
      exact ih (i+1) pc (by simp [h1, h2, h3])
  intro n i pc
  by_cases h : sv.restart = .loop ∨ sv.restart = .temporary ∨ sv.restart = .onFailure
  · exact Or.inr (hmain n i pc h)
  · exact Or.inl (hnone n i pc h)

/-- Every ephemeral-tree child captures `portCount = j*100 + i`. -/
lemma runEphemeralChildren_pc (procs : List ProcessType)
    (formation : List (String × Nat)) :
    ∀ c ∈ runEphemeralChildren procs formation, c.pc = c.j * 100 + c.i := by
  unfold runEphemeralChildren
  generalize 0 = j0
  induction procs generalizing j0 with
  | nil => intro c hc; simp [runEphemeralGo] at hc
  | cons sv rest ih =>
    intro c hc
    simp only [runEphemeralGo, List.mem_append] at hc
    rcases hc with hc | hc
    · by_cases hb : strStartsWith sv.name "build" = true
      · simp [hb] at hc
      · rw [if_neg hb] at hc
        rcases ephemInstLoop_cases j0 sv (formationCount formation sv.name) 0 (j0 * 100)
          with he | he
        · rw [he] at hc; simp at hc
        · rw [he] at hc
          simp only [List.mem_map, List.mem_range] at hc
          obtain ⟨k, _, rfl⟩ := hc
          simp
    · exact ih (j0 + 1) c hc

/-- C2, code bug: `base_port = 5000`, one non-build descriptor
`web` (`restart=onbuild`, descriptor index `j = 0`), `formation web:2`:
instance `web.1` captures `portCount = j*100 + i = 1`, its environment
carries `PORT=5001` and it advertises `WEB_1_PORT ↦ localhost:5001` in
the dynamic service state — yet `prepareStaticServiceDiscovery` emits
`WEB_1_PORT=localhost:5000`: the static list reuses `j*100` for every
instance because the `portCount` increment sits outside the instance
loop (line 427). -/
theorem staticDiscoveryPort_bug :
    runPermanentChildren [⟨"web", "./server", "", RestartMode.onBuild⟩]
        [("web", 2)] =
      [⟨0, ⟨"web", "./server", "", RestartMode.onBuild⟩, 0, 0⟩,
       ⟨0, ⟨"web", "./server", "", RestartMode.onBuild⟩, 1, 1⟩]
    ∧ "PORT=5001" ∈ (startProcessEnv [] [] [] "" 5000
        ⟨"web", "./server", "", RestartMode.onBuild⟩ 1 1 "").env
    ∧ (startProcessEnv [] [] [] "" 5000
        ⟨"web", "./server", "", RestartMode.onBuild⟩ 1 1 "").sdUpdates =
      [("WEB_1_PORT", "localhost:5001")]
    ∧ prepareStaticServiceDiscovery 5000
        [⟨"web", "./server", "", RestartMode.onBuild⟩] [("web", 2)] =
      ["WEB_0_PORT=localhost:5000", "WEB_1_PORT=localhost:5000"] := by
  refine ⟨by decide, by decide, by decide, by decide⟩

/-- C8, code bug: With `web.0` advertised as
`WEB_0_PORT ↦ localhost:5000` and a wait_for target `WEB`, the prober
dials the malformed address `localhost:localhost:5000` — `"localhost:"`
prepended to the stored value, which is already a `host:port` — not the
instance's advertised `localhost:5000`. -/
theorem waitFor_dials_malformed_address :
    resolveProcessTypeAddress [("WEB_0_PORT", "localhost:5000")] "WEB" =
      "localhost:localhost:5000"
    ∧ waitForDials [("WEB_0_PORT", "localhost:5000")] (fun _ => false) 1 "WEB" =
      ["localhost:localhost:5000"]
    ∧ "localhost:localhost:5000" ≠ "localhost:5000" := by
  refine ⟨by decide, by decide, by decide⟩

/-- C9, counterexample: The first three delivered polling delays are
50 ms, 300 ms and 550 ms: an arithmetic progression with step 250 ms
(equal successive differences), not a geometric/exponential schedule
(the ratio test `300·300 = 50·550` fails). -/
theorem backoff_not_exponential :
    backoffDelays 50 250 5000 [true, true, true] 0 = [50, 300, 550]
    ∧ 550 - 300 = 300 - 50
    ∧ 300 * 300 ≠ 50 * 550 := by
  refine ⟨by decide, by decide, by decide⟩

lemma backoffDelays_replicate (base retry maxD : Nat) :
    ∀ (n k : Nat), backoffDelays base retry maxD (List.replicate n true) k =
      (List.range n).map (fun m => min (base + (k + m) * retry) maxD) := by
  intro n
  induction n with
  | zero => intro k; rfl
  | succ n ih =>
    intro k
    rw [List.replicate_succ, List.range_succ_eq_map]
    simp only [backoffDelays, backoffTick, if_pos, List.map_cons, List.map_map]
    refine congrArg₂ List.cons ?_ ?_
    · rw [Nat.add_zero, Nat.min_def]
      split <;> split <;> omega
    · rw [ih (k + 1)]
      apply List.map_congr_left
      intro m _
      simp only [Function.comp_apply, Nat.succ_eq_add_one]
      have hkm : k + (m + 1) = k + 1 + m := by omega
      rw [hkm]

/-- C9, amended: The watcher's polling delays follow a LINEAR
(arithmetic) backoff schedule: the `m`-th consecutively delivered tick
sleeps `min (50 + m·250, 5000)` milliseconds (base 50 ms, step 250 ms,
cap 5 s), and the retry counter resets to the base when a tick is
dropped because the consumer is still busy — not upon an emitted change
event. -/
theorem backoffSchedule_linear :
    (∀ n : Nat, backoffDelays 50 250 5000 (List.replicate n true) 0 =
      (List.range n).map (fun m => min (50 + m * 250) 5000))
    ∧ (∀ (r : Nat) (ts : List Bool),
        backoffDelays 50 250 5000 (false :: ts) r =
          50 :: backoffDelays 50 250 5000 ts 0) := by
  constructor
  · intro n
    rw [backoffDelays_replicate]
    apply List.map_congr_left
    intro m _
    congr 1
    omega
  · intro r ts
    rfl

/-- C1: When the build stage returns false for a change event, the
previous generation survives: the step does not cancel the current run
context (so every child of the previously running permanent tree keeps
its context alive), starts and queues no new generation, leaves the
ephemeral tree untouched, and the loop continues to its next iteration
rather than terminating — on every path (fresh hash, or stale hash with
a backlog). -/
theorem buildFailure_preserves_generation (hash : String → String)
    (backlog : Nat) (fn : String) (s : OrchState) :
    ((stepUpdate hash backlog false fn s).1.genCancelled = s.genCancelled)
    ∧ ((stepUpdate hash backlog false fn s).1.generation = s.generation)
    ∧ ((stepUpdate hash backlog false fn s).1.runSlot = s.runSlot)
    ∧ ((stepUpdate hash backlog false fn s).1.ephemeralStarted =
        s.ephemeralStarted)
    ∧ ((stepUpdate hash backlog false fn s).1.terminated = s.terminated)
    ∧ ((stepUpdate hash backlog false fn s).2 = OrchAction.skipped
        ∨ (stepUpdate hash backlog false fn s).2 = OrchAction.buildFailed) := by
  unfold stepUpdate
  by_cases hskip :
      (match lookupKey s.fileHashes fn with
        | some oldHash => (hash fn == oldHash) && decide (0 < backlog)
        | none => false) = true
  · simp [hskip]
  · simp [hskip]

/-- C6: A change event for a file whose computed content hash equals
the stored hash, with at least one further event queued in the updates
channel, is skipped entirely: the state is returned unchanged — no build
runs, nothing is cancelled, and no generation restart is queued. -/
theorem unchangedHash_skips (hash : String → String) (backlog : Nat)
    (buildOk : Bool) (fn h : String) (s : OrchState)
    (hstored : lookupKey s.fileHashes fn = some h)
    (hhash : hash fn = h) (hbacklog : 0 < backlog) :
    stepUpdate hash backlog buildOk fn s = (s, OrchAction.skipped) := by
  unfold stepUpdate
  simp [hstored, hhash, hbacklog]

/-- Witness for `unchangedHash_skips` at a concrete state. -/
theorem unchangedHash_skips_witness :
    lookupKey (OrchState.mk [("main.go", "cafe12")] false 1 none true false).fileHashes
        "main.go" = some "cafe12"
    ∧ (fun _ : String => "cafe12") "main.go" = "cafe12"
    ∧ 0 < 1
    ∧ stepUpdate (fun _ => "cafe12") 1 true "main.go"
        (OrchState.mk [("main.go", "cafe12")] false 1 none true false) =
      (OrchState.mk [("main.go", "cafe12")] false 1 none true false,
        OrchAction.skipped) :=
  ⟨by decide, rfl, by decide,
    unchangedHash_skips (fun _ => "cafe12") 1 true "main.go" "cafe12"
      (OrchState.mk [("main.go", "cafe12")] false 1 none true false)
      (by decide) rfl (by decide)⟩

/-- C4, counterexample: Observables `!a.txt` then `a.txt`
(negatives sorted first), no skip dirs, and the single file
`/wd/a.txt`: the file matches the positive pattern AND the negative
pattern, yet the scanner still lists it as an emission candidate —
`!`-prefixed patterns are matched literally by `match` and never
exclude anything. -/
theorem scanner_ignores_negative_patterns :
    scanCandidates "/wd" [] ["!a.txt", "a.txt"]
        (.dir "wd" (.cons (.file "a.txt") .nil)) = ["/wd/a.txt"]
    ∧ matchesNegative ["!a.txt", "a.txt"] "/wd/a.txt" = true
    ∧ matchesPositive ["!a.txt", "a.txt"] "/wd/a.txt" = true := by
  refine ⟨by decide, by decide, by decide⟩

/-- C4, amended: In the filesystem-scan watcher, a file under
`workdir` is an emission candidate iff none of the directories guarding
it (the root included) falls under a `Join(workdir, skipDir)` prefix,
and its path matches at least one observable pattern under the literal
matcher — a `!` prefix has no special meaning, so negative patterns do
not exclude files. -/
theorem scanCandidates_iff (wd : String) (skips obs : List String)
    (root : FSEntry) (path : String) :
    path ∈ scanCandidates wd skips obs root ↔
      (∃ ds, (path, ds) ∈ fsFiles wd root
        ∧ (∀ d ∈ ds, prunedDir wd skips d = false)
        ∧ obs.any (fun pt => matchPath pt path) = true) := by
  have main : ∀ e : FSEntry, ∀ p : String,
      path ∈ walkEntry wd skips obs p e ↔
        (∃ ds, (path, ds) ∈ fsFiles p e
          ∧ (∀ d ∈ ds, prunedDir wd skips d = false)
          ∧ obs.any (fun pt => matchPath pt path) = true) := by
    refine @FSEntry.rec
      (fun e => ∀ p : String,
        path ∈ walkEntry wd skips obs p e ↔
          (∃ ds, (path, ds) ∈ fsFiles p e
            ∧ (∀ d ∈ ds, prunedDir wd skips d = false)
            ∧ obs.any (fun pt => matchPath pt path) = true))
      (fun l => ∀ p : String,
        path ∈ walkEntries wd skips obs p l ↔
          (∃ ds, (path, ds) ∈ fsFilesList p l
            ∧ (∀ d ∈ ds, prunedDir wd skips d = false)
            ∧ obs.any (fun pt => matchPath pt path) = true))
      ?_ ?_ ?_ ?_
    · intro n p
      by_cases hm : obs.any (fun pt => matchPath pt p) = true
      · simp only [walkEntry, hm, if_true, List.mem_singleton, fsFiles]
        constructor
        · rintro rfl
          exact ⟨[], by simp, by simp, hm⟩
        · rintro ⟨ds, hmem, -, -⟩
          simp only [List.mem_singleton, Prod.mk.injEq] at hmem
          exact hmem.1
      · simp only [walkEntry, hm, if_false, List.not_mem_nil, fsFiles,
          Bool.not_eq_true]
        constructor
        · intro hfalse
          exact absurd hfalse (by simp)
        · rintro ⟨ds, hmem, -, hany⟩
          simp only [List.mem_singleton, Prod.mk.injEq] at hmem
          rw [hmem.1] at hany
          exact absurd hany hm
    · intro n entries ih p
      by_cases hp : prunedDir wd skips p = true
      · simp only [walkEntry]
        rw [if_pos hp]
        simp only [List.not_mem_nil, fsFiles, false_iff]
        rintro ⟨ds, hmem, hprune, -⟩
        simp only [List.mem_map] at hmem
        obtain ⟨fd, -, heq⟩ := hmem
        injection heq with heq1 heq2
        have hpf : prunedDir wd skips p = false := by
          refine hprune p ?_
          rw [← heq2]
          simp
        rw [hp] at hpf
        exact absurd hpf (by simp)
      · simp only [walkEntry]
        rw [if_neg hp]
        rw [ih p]
        simp only [fsFiles, List.mem_map]
        constructor
        · rintro ⟨ds, hmem, hprune, hany⟩
          refine ⟨p :: ds, ⟨(path, ds), hmem, by simp⟩, ?_, hany⟩
          intro d hd
          rcases List.mem_cons.mp hd with rfl | hd
          · simpa using hp
          · exact hprune d hd
        · rintro ⟨ds, ⟨fd, hfd, heq⟩, hprune, hany⟩
          injection heq with heq1 heq2
          refine ⟨fd.2, ?_, ?_, hany⟩
          · have hfdeq : fd = (path, fd.2) := by
              rw [← heq1]
            rwa [hfdeq] at hfd
          · intro d hd
            refine hprune d ?_
            rw [← heq2]
            simp [hd]
    · intro p
      simp [walkEntries, fsFilesList]
    · intro e rest ih1 ih2 p
      simp only [walkEntries, fsFilesList, List.mem_append]
      rw [ih1 (joinPath p e.entryName), ih2 p]
      constructor
      · rintro (⟨ds, hmem, hprune, hany⟩ | ⟨ds, hmem, hprune, hany⟩)
        · exact ⟨ds, Or.inl hmem, hprune, hany⟩
        · exact ⟨ds, Or.inr hmem, hprune, hany⟩
      · rintro ⟨ds, hmem | hmem, hprune, hany⟩
        · exact Or.inl ⟨ds, hmem, hprune, hany⟩
        · exact Or.inr ⟨ds, hmem, hprune, hany⟩
  exact main root wd

lemma cleanPath_ne_empty (p : String) : cleanPath p ≠ "" := by
  unfold cleanPath
  split
  · intro h
    exact absurd h (by decide)
  · dsimp only
    split
    · intro h
      have hd := congrArg String.data h
      rw [String.data_append] at hd
      exact absurd hd (by simp)
    · split
      · intro h
        exact absurd h (by decide)
      · rename_i hne
        exact hne

lemma consumeLoop_eq_spec :
    ∀ (segs : List String) (tmp : String),
      consumeLoop segs tmp = segmentsOccurInOrder segs tmp := by
  intro segs
  induction segs with
  | nil => intro tmp; rfl
  | cons seg rest ih =>
    intro tmp
    by_cases hseg : seg = ""
    · simp only [consumeLoop, segmentsOccurInOrder, hseg, if_true, if_pos]
      exact ih tmp
    · simp only [consumeLoop, segmentsOccurInOrder, hseg, if_false]
      cases hr : removeFirst (cleanPath seg).data tmp.data with
      | none =>
        have ht : replaceFirstEmpty tmp (cleanPath seg) = tmp := by
          simp [replaceFirstEmpty, hr]
        rw [if_pos ht]
      | some t =>
        have hne := replaceFirstEmpty_ne_of_some tmp (cleanPath seg)
          (cleanPath_ne_empty seg) t hr
        have heq : replaceFirstEmpty tmp (cleanPath seg) = String.mk t := by
          simp [replaceFirstEmpty, hr]
        rw [if_neg (heq ▸ hne), heq]
        exact ih (String.mk t)

/-- C7: The runner's `match` coincides, on every pattern and path,
with the specification's description: the basename of the path matches
the basename of the pattern under standard Unix glob rules, and either
the pattern's directory part is `.`, or every non-empty cleaned
`**`-segment of it occurs in order within the path's directory, each
occurrence consumed by a first-occurrence substring removal.  Both
sides are pure functions of the two arguments. -/
theorem matchPath_eq_matchSpec (p s : String) : matchPath p s = matchSpec p s := by
  unfold matchPath matchSpec
  cases hg : goMatch (basePath p) (basePath s) with
  | none => simp [hg]
  | some b =>
    cases b with
    | false => simp [hg]
    | true =>
      by_cases hd : dirPath p = "."
      · simp [hg, hd]
      · simp [hg, hd, consumeLoop_eq_spec]

end RunnerProofs
